import Mathlib

/-!
# Verification of the essensio single-node ledger core

Shallow embedding of the repository's core package (block and transaction
model, UTXO resolution, chain manager) together with the jsonrpc layer's
AddBlock handler.  Collaborator code that is not part of the repository
snapshot (the `common` hash/address primitives, the `db` store, the block
header / proof-of-work minter and the chain iterator) is modelled from the
specification and marked as such in the doc comments.
-/

namespace Essensio

/-- Size of the digest type: `common.Hash` is a fixed 32-byte array
(`sha256.Sum256`'s `[32]byte` result is assigned to it directly in
`Transaction.SetID`). -/
def HashLen : Nat := 32

/-- Modelled from the spec: the fixed-size (32-byte) digest type `common.Hash`.
The bytes are carried as a list so that Go's `len` on the array value is the
list length, which the invariant pins to 32. -/
structure Hash where
  bytes : List Nat
  len32 : bytes.length = HashLen

theorem Hash.ext' {a b : Hash} (h : a.bytes = b.bytes) : a = b := by
  cases a; cases b; cases h; rfl

instance : DecidableEq Hash := fun a b =>
  if h : a.bytes = b.bytes then .isTrue (Hash.ext' h)
  else .isFalse (fun he => h (congrArg Hash.bytes he))

/-- Modelled from the spec: `common.NullHash()`, the canonical zero digest used
as the genesis sentinel and the coinbase's non-referencing input marker. -/
def NullHash : Hash := ⟨List.replicate HashLen 0, List.length_replicate _ _⟩

/-- A concrete nonzero digest, used to build concrete chains in examples. -/
def mkHash (n : Nat) : Hash :=
  ⟨(n + 1) :: List.replicate (HashLen - 1) 0, by simp [HashLen]⟩

/-- `common.Address` has underlying type `string` (the code converts string
data to it with `common.Address(...)`), compared with `==`. -/
abbrev Address := String

/-- Modelled from the spec: the reserved block-reward recipient constant
`common.MinerAddress()`. -/
def MinerAddress : Address := "miner"

structure TxOutput where
  Value : Int
  PubKey : Address
deriving DecidableEq

structure TxInput where
  ID : Hash
  Out : Int
  Sig : Address
deriving DecidableEq

structure Transaction where
  ID : Hash
  Inputs : List TxInput
  Outputs : List TxOutput
deriving DecidableEq

abbrev Transactions := List Transaction

/-- Modelled from the spec: `core.BlockHeader` (its source file is not in the
snapshot): prior hash, summary hash, wall-clock timestamp and mining nonce. -/
structure BlockHeader where
  Priori : Hash
  Summary : Hash
  Timestamp : Int
  Nonce : Int
deriving DecidableEq

/-- `core.Block`: the Go struct embeds `BlockHeader`; here it is a field with
accessor definitions standing in for Go's promoted fields. -/
structure Block where
  Header : BlockHeader
  BlockHeight : Int
  BlockTxns : Transactions
  BlockHash : Hash
deriving DecidableEq

def Block.Priori (b : Block) : Hash := b.Header.Priori

def Block.Summary (b : Block) : Hash := b.Header.Summary

/-- The collaborators the core consumes, modelled from the spec: the fallible
gob codec for transactions and blocks, the `common.Hash256` digest, the wall
clock read at header creation, and the proof-of-work search of §4.2 (which
returns the accepted nonce and the candidate digest; its unbounded loop is
abstracted to a function since its source is not in the snapshot). -/
structure Collab where
  serTxn : Transaction → Option (List Nat)
  serBlock : Block → Option (List Nat)
  hash256 : List Nat → Hash
  timestamp : Int
  mint : BlockHeader → Int × Hash

/-- `TxInput.CanUnlock`: `in.Sig == address`. -/
def TxInput.CanUnlock (i : TxInput) (address : Address) : Bool :=
  i.Sig == address

/-- `TxOutput.CanBeUnlocked`: `out.PubKey == address`. -/
def TxOutput.CanBeUnlocked (o : TxOutput) (address : Address) : Bool :=
  o.PubKey == address

/-- `Transaction.IsCoinbase`:
`len(tx.Inputs) == 1 && len(tx.Inputs[0].ID) == 0 && tx.Inputs[0].Out == -1`.
Go's `len` on the `[32]byte` array value `ID` is embedded as the length of its
byte list. -/
def Transaction.IsCoinbase (tx : Transaction) : Bool :=
  match tx.Inputs with
  | [i] => i.ID.bytes.length == 0 && i.Out == -1
  | _ => false

/-- `Transaction.SetID`: serializes the transaction and stamps the sha256 of
the bytes as its id.  On serialization failure the Go method returns the error
without touching the id; both callers ignore that error, so the embedding
returns the transaction unchanged in that case. -/
def Transaction.SetID (c : Collab) (tx : Transaction) : Transaction :=
  match c.serTxn tx with
  | none => tx
  | some bs => { tx with ID := c.hash256 bs }

/-- `core.CoinbaseTxn(to, data)`: single non-referencing input
`{NullHash, -1, Address(data)}` and one output of the fixed reward 100 to
`to`; the id is stamped last. -/
def CoinbaseTxn (c : Collab) (toA : Address) (data : String) : Transaction :=
  let data' := if data == "" then "Coins to " ++ toA else data
  let txnIn : TxInput := ⟨NullHash, -1, data'⟩
  let txnOut : TxOutput := ⟨100, toA⟩
  Transaction.SetID c ⟨NullHash, [txnIn], [txnOut]⟩

/-- `Transaction.Hash`: sha256 of the serialized transaction, or the null hash
when serialization fails. -/
def Transaction.Hash (c : Collab) (tx : Transaction) : Hash :=
  match c.serTxn tx with
  | none => NullHash
  | some d => c.hash256 d

/-- The loop of `core.GenerateSummary`: hash each transaction into the buffer,
short-circuiting with the null hash as soon as one transaction's hash is the
null hash; finally hash the buffer. -/
def generateSummaryGo (c : Collab) : Transactions → List Nat → Hash
  | [], buffer => c.hash256 buffer
  | txn :: rest, buffer =>
    let h := Transaction.Hash c txn
    if h = NullHash then h
    else generateSummaryGo c rest (buffer ++ h.bytes)

/-- `core.GenerateSummary(txns)`. -/
def GenerateSummary (c : Collab) (txns : Transactions) : Hash :=
  generateSummaryGo c txns []

/-- Modelled from the spec: `core.NewBlockHeader(priori, summary)` (its source
file is not in the snapshot) builds the header with the current wall-clock
timestamp and the nonce unset (zero). -/
def NewBlockHeader (c : Collab) (priori summary : Hash) : BlockHeader :=
  ⟨priori, summary, c.timestamp, 0⟩

/-- Modelled from the spec: `BlockHeader.Mint` (§4.2) searches for a nonce
whose candidate digest satisfies the difficulty predicate, stores the nonce in
the header and returns the candidate as the block hash.  The search itself is
the collaborator `c.mint`. -/
def BlockHeader.Mint (c : Collab) (h : BlockHeader) : BlockHeader × Hash :=
  let r := c.mint h
  ({ h with Nonce := r.1 }, r.2)

/-- `core.NewBlock(txns, priori, height)`: computes the summary (with no check
of the null-hash failure sentinel), builds the header, mints, and returns the
block.  The Go function has no error path: it always returns a block. -/
def NewBlock (c : Collab) (txns : Transactions) (priori : Hash) (height : Int) : Block :=
  let summary := GenerateSummary c txns
  let header := NewBlockHeader c priori summary
  let r := BlockHeader.Mint c header
  ⟨r.1, height, txns, r.2⟩

/-- Errors of the core, following the spec's taxonomy: store misses
(`NotFound`), serialization failures, and an artifact of the embedding,
`fuelOut`, standing for divergence of the unbounded backward walk (never
reached on the chains considered here, since the walk is run with fuel
exceeding the store size). -/
inductive ChainError where
  | notFound
  | serializeFailed
  | fuelOut
deriving DecidableEq

/-- Modelled from the spec: the durable key-value store, restricted to the
namespaces the core uses — block hash → block entries, plus the two reserved
chain-state keys.  The codec is assumed lossless (§6), so entries carry the
decoded values. -/
structure DB where
  blocks : List (Hash × Block)
  stateHead : Option Hash
  stateHeight : Option Int
deriving DecidableEq

/-- Store read at a block key (`db.GetEntry` plus decode). -/
def DB.getBlock (db : DB) (h : Hash) : Option Block :=
  (db.blocks.find? (fun e => e.1 == h)).map Prod.snd

/-- Store write at a block key (`db.SetEntry` of the encoded block); the new
entry shadows any older entry at the same key. -/
def DB.setBlock (db : DB) (h : Hash) (b : Block) : DB :=
  { db with blocks := (h, b) :: db.blocks }

/-- `core.ChainManager`: the database handle plus the in-memory head hash and
height. -/
structure ChainManager where
  db : DB
  Head : Hash
  Height : Int
deriving DecidableEq

/-- `ChainManager.syncState`: writes the in-memory head and height at the two
reserved keys.  The store put and the gob encoding of an `int64` are
collaborator operations assumed reliable here, so the embedding is total. -/
def ChainManager.syncState (chain : ChainManager) : ChainManager :=
  { chain with
    db := { chain.db with stateHead := some chain.Head, stateHeight := some chain.Height } }

/-- `ChainManager.AddBlock(txns)`: build the block from the current head and
height, serialize it (propagating failure), store it keyed by its hash, only
then update the in-memory head/height, then sync the chain state. -/
def ChainManager.AddBlock (c : Collab) (chain : ChainManager) (txns : Transactions) :
    Except ChainError ChainManager :=
  let block := NewBlock c txns chain.Head chain.Height
  match c.serBlock block with
  | none => .error .serializeFailed
  | some _ =>
    let chain1 : ChainManager :=
      { db := chain.db.setBlock block.BlockHash block
        Head := block.BlockHash
        Height := chain.Height + 1 }
    .ok chain1.syncState

/-- Modelled from the spec: one step of the chain iterator (§4.5) — `Next`
fails `NotFound` if the cursor hash is absent from the store, otherwise loads
the block, yields it, and advances the cursor to the block's prior hash. -/
def iterNext (db : DB) (cursor : Hash) : Except ChainError (Block × Hash) :=
  match db.getBlock cursor with
  | none => .error .notFound
  | some b => .ok (b, b.Priori)

/-- Lookup in the `spentTXOs` map (`map[common.Hash][]int`); a missing key is
Go's `nil` slice, embedded as the empty list. -/
def mapGet (m : List (Hash × List Int)) (k : Hash) : List Int :=
  match m.find? (fun e => e.1 == k) with
  | none => []
  | some e => e.2

/-- `m[k] = append(m[k], v)` on a `map[common.Hash][]int`, embedded on an
association list. -/
def mapAppend (m : List (Hash × List Int)) (k : Hash) (v : Int) : List (Hash × List Int) :=
  match m with
  | [] => [(k, [v])]
  | e :: rest => if e.1 == k then (e.1, e.2 ++ [v]) :: rest else e :: mapAppend rest k v

/-- The `Outputs:` inner loop of `FindUnspentTransactions` for one
transaction: append the transaction once per output that is not yet marked
spent and can be unlocked by the address.  `idx` is the running output index;
`spentIdxs` is `spentTXOs[tx.ID]` as read before the loop. -/
def collectOuts (address : Address) (tx : Transaction) (spentIdxs : List Int) :
    List TxOutput → Int → Transactions
  | [], _ => []
  | out :: rest, idx =>
    let tail := collectOuts address tx spentIdxs rest (idx + 1)
    if spentIdxs.contains idx then tail
    else if out.CanBeUnlocked address then tx :: tail
    else tail

/-- Per-transaction step of `FindUnspentTransactions`: first collect the
unspent unlockable outputs (against the spent map as it stands), then — when
the transaction is not a coinbase — mark every output referenced by an input
the address can unlock as spent. -/
def processTx (address : Address) (tx : Transaction) (spent : List (Hash × List Int)) :
    Transactions × List (Hash × List Int) :=
  let found := collectOuts address tx (mapGet spent tx.ID) tx.Outputs 0
  let spent' :=
    if tx.IsCoinbase then spent
    else tx.Inputs.foldl
      (fun m i => if i.CanUnlock address then mapAppend m i.ID i.Out else m) spent
  (found, spent')

/-- Per-block step of `FindUnspentTransactions`: fold the per-transaction step
over the block's transactions in order. -/
def processBlock (address : Address) (txns : Transactions)
    (st : Transactions × List (Hash × List Int)) :
    Transactions × List (Hash × List Int) :=
  txns.foldl (fun st tx =>
    let r := processTx address tx st.2
    (st.1 ++ r.1, r.2)) st

/-- The backward walk of `FindUnspentTransactions`: call the iterator, process
the block, and stop with success only when `len(block.Priori) == 0` — the Go
genesis check on the 32-byte prior-hash array.  The fuel bounds the unbounded
`for` loop; it is chosen by the caller to exceed the store size. -/
def findUnspentLoop (address : Address) (db : DB) :
    Nat → Hash → Transactions × List (Hash × List Int) → Except ChainError Transactions
  | 0, _, _ => .error .fuelOut
  | fuel + 1, cursor, st =>
    match iterNext db cursor with
    | .error e => .error e
    | .ok (block, next) =>
      let st' := processBlock address block.BlockTxns st
      if block.Priori.bytes.length == 0 then .ok st'.1
      else findUnspentLoop address db fuel next st'

/-- `ChainManager.FindUnspentTransactions(address)`. -/
def ChainManager.FindUnspentTransactions (chain : ChainManager) (address : Address) :
    Except ChainError Transactions :=
  findUnspentLoop address chain.db (chain.db.blocks.length + 1) chain.Head ([], [])

/-- The collection fold of `FindUTXO` over the resolved transactions: every
output of every returned transaction that the address can unlock. -/
def utxoFilter (address : Address) (txs : Transactions) : List TxOutput :=
  txs.foldl (fun acc tx => acc ++ tx.Outputs.filter (fun o => o.CanBeUnlocked address)) []

/-- `ChainManager.FindUTXO(address)`. -/
def ChainManager.FindUTXO (chain : ChainManager) (address : Address) :
    Except ChainError (List TxOutput) :=
  match chain.FindUnspentTransactions address with
  | .error e => .error e
  | .ok txs => .ok (utxoFilter address txs)

/-- The inner output loop of `FindSpendableOutputs` for one transaction:
select each unlockable output while `accumulated < amount`, and report
(`.2.2 = true`) a `break Work` as soon as the running total reaches the
amount. -/
def spendOuts (address : Address) (amount : Int) (txID : Hash) :
    List TxOutput → Int → Int → List (Hash × List Int) →
    Int × List (Hash × List Int) × Bool
  | [], _, acc, m => (acc, m, false)
  | out :: rest, idx, acc, m =>
    if out.CanBeUnlocked address = true ∧ acc < amount then
      let acc' := acc + out.Value
      let m' := mapAppend m txID idx
      if amount ≤ acc' then (acc', m', true)
      else spendOuts address amount txID rest (idx + 1) acc' m'
    else spendOuts address amount txID rest (idx + 1) acc m

/-- The `Work:` loop of `FindSpendableOutputs` over the resolved transactions,
with the labelled break ending the whole loop. -/
def spendLoop (address : Address) (amount : Int) :
    Transactions → Int → List (Hash × List Int) → Int × List (Hash × List Int)
  | [], acc, m => (acc, m)
  | tx :: rest, acc, m =>
    let r := spendOuts address amount tx.ID tx.Outputs 0 acc m
    if r.2.2 then (r.1, r.2.1) else spendLoop address amount rest r.1 r.2.1

/-- `FindSpendableOutputs` factored over the resolver's result: propagate a
resolver error (the Go function returns `-1, nil, err`), otherwise run the
accumulation loop from zero. -/
def FindSpendableOutputsCore (address : Address) (amount : Int)
    (res : Except ChainError Transactions) :
    Except ChainError (Int × List (Hash × List Int)) :=
  match res with
  | .error e => .error e
  | .ok txs => .ok (spendLoop address amount txs 0 [])

/-- `ChainManager.FindSpendableOutputs(address, amount)`. -/
def ChainManager.FindSpendableOutputs (chain : ChainManager) (address : Address)
    (amount : Int) : Except ChainError (Int × List (Hash × List Int)) :=
  FindSpendableOutputsCore address amount (chain.FindUnspentTransactions address)

/-- The two `log.Panic` call sites of `core.NewTransaction`: a resolver error,
or the accumulated value falling short of the requested amount.  An `Except`
error built from this type stands for a process abort (the Go function's
return type has no error component), not for an error returned to the
caller. -/
inductive Panic where
  | resolverError (e : ChainError)
  | insufficientFunds
deriving DecidableEq

/-- The construction section of `core.NewTransaction` (after both checks
pass): one input per selected `(txid, output-index)` pair carrying the sender
as unlock data, one output of `amount` to the recipient, and a change output
of the surplus back to the sender exactly when `acc > amount`; the id is
stamped last.  Go ranges over the selection map in unspecified order; the
embedding ranges over the association list in its order. -/
def buildTransferTxn (c : Collab) (fromA toA : Address) (amount acc : Int)
    (validOutputs : List (Hash × List Int)) : Transaction :=
  let inputs := validOutputs.foldl
    (fun ins e => ins ++ e.2.map (fun o => TxInput.mk e.1 o fromA)) []
  let outputs := TxOutput.mk amount toA ::
    (if acc > amount then [TxOutput.mk (acc - amount) fromA] else [])
  Transaction.SetID c ⟨NullHash, inputs, outputs⟩

/-- `core.NewTransaction` factored over the resolver's result: `log.Panic` on
a resolver error; `log.Panic("Error: not enough funds")` when `acc < amount`;
otherwise build the transfer transaction. -/
def NewTransactionCore (c : Collab) (fromA toA : Address) (amount : Int)
    (res : Except ChainError (Int × List (Hash × List Int))) :
    Except Panic Transaction :=
  match res with
  | .error e => .error (.resolverError e)
  | .ok (acc, validOutputs) =>
    if acc < amount then .error .insufficientFunds
    else .ok (buildTransferTxn c fromA toA amount acc validOutputs)

/-- `core.NewTransaction(from, to, amount, chain)`. -/
def NewTransaction (c : Collab) (fromA toA : Address) (amount : Int)
    (chain : ChainManager) : Except Panic Transaction :=
  NewTransactionCore c fromA toA amount (chain.FindSpendableOutputs fromA amount)

/-- One entry of the jsonrpc `AddBlock` request body. -/
structure TransactionInput where
  To : Address
  From : Address
  Value : Int
deriving DecidableEq

/-- The jsonrpc `AddBlock` response: the appended block's height
(`Height - 1`) and the new head hash (rendered as hex by the handler; the
embedding keeps the digest itself). -/
structure AddBlockResult where
  BlockHeight : Int
  BlockHash : Hash
deriving DecidableEq

/-- Failure modes of the jsonrpc `AddBlock` handler: the empty-block
validation error (`"no transactions for block"`), a propagated
`ChainManager.AddBlock` error, or a process abort raised inside
`core.NewTransaction`. -/
inductive RpcError where
  | emptyBlock
  | addBlockFailed (e : ChainError)
  | panicked (p : Panic)
deriving DecidableEq

/-- The handler's transaction-building loop: one `core.NewTransaction` per
request entry; a panic aborts the whole call. -/
def buildTxns (c : Collab) (chain : ChainManager) :
    List TransactionInput → Except Panic Transactions
  | [] => .ok []
  | a :: rest =>
    match NewTransaction c a.From a.To a.Value chain with
    | .error p => .error p
    | .ok tx =>
      match buildTxns c chain rest with
      | .error p => .error p
      | .ok txs => .ok (tx :: txs)

/-- `jsonrpc.API.AddBlock`: reject an empty transaction list before touching
the chain; otherwise build every transfer, append the block, and answer with
the new height and head.  The manager is threaded explicitly: it is returned
unchanged on every failure path reached before the append. -/
def APIAddBlock (c : Collab) (chain : ChainManager) (args : List TransactionInput) :
    Except RpcError AddBlockResult × ChainManager :=
  if args.length = 0 then (.error .emptyBlock, chain)
  else
    match buildTxns c chain args with
    | .error p => (.error (.panicked p), chain)
    | .ok txns =>
      match chain.AddBlock c txns with
      | .error e => (.error (.addBlockFailed e), chain)
      | .ok chain' => (.ok ⟨chain'.Height - 1, chain'.Head⟩, chain')

/-! ## Independent replay of the chain (the conservation claim's right-hand
side), defined from the spec's words: total value of outputs ever addressed to
an address, minus the total value of outputs that address has since referenced
as inputs. -/

/-- All transactions of a chain, in canonical forward order. -/
def chainTxns (blocks : List Block) : Transactions :=
  blocks.foldl (fun a b => a ++ b.BlockTxns) []

/-- Total value of outputs addressed to `address` across the transactions. -/
def outputsTo (address : Address) (txs : Transactions) : Int :=
  txs.foldl (fun s tx =>
    tx.Outputs.foldl (fun t o => if o.PubKey = address then t + o.Value else t) s) 0

/-- Value of the output a `(txid, index)` reference points at, zero when the
reference resolves to nothing. -/
def refValue (txs : Transactions) (id : Hash) (outIdx : Int) : Int :=
  match txs.find? (fun tx => tx.ID == id) with
  | none => 0
  | some tx =>
    if outIdx < 0 then 0
    else match tx.Outputs.get? outIdx.toNat with
      | none => 0
      | some o => o.Value

/-- Total value of outputs the address has referenced as inputs; the spec's
coinbase marker (null source id together with index `-1`) references
nothing. -/
def spentBy (address : Address) (txs : Transactions) : Int :=
  txs.foldl (fun s tx =>
    tx.Inputs.foldl (fun t i =>
      if i.Sig = address ∧ ¬(i.ID = NullHash ∧ i.Out = -1) then
        t + refValue txs i.ID i.Out
      else t) s) 0

/-- The replayed balance of an address over a whole chain. -/
def replayBalance (blocks : List Block) (address : Address) : Int :=
  outputsTo address (chainTxns blocks) - spentBy address (chainTxns blocks)

/-! ## Concrete chain for the failing-input theorems: the store an empty-store
startup produces — exactly the genesis block with its single coinbase to the
miner address. -/

/-- The genesis coinbase transaction, with reward 100 to the miner address and
the non-referencing input carrying the genesis memo. -/
def exampleCoinbase : Transaction :=
  ⟨mkHash 3, [⟨NullHash, -1, "Genesis Block Coinbase Transaction"⟩], [⟨100, MinerAddress⟩]⟩

/-- The genesis block: prior hash null, height 0, one coinbase transaction. -/
def exampleGenesis : Block :=
  ⟨⟨NullHash, mkHash 2, 0, 0⟩, 0, [exampleCoinbase], mkHash 1⟩

/-- The chain manager as left by a fresh initialization: the genesis block in
the store keyed by its hash, head at genesis, height 1, state synced. -/
def exampleChain : ChainManager :=
  ⟨⟨[(mkHash 1, exampleGenesis)], some (mkHash 1), some 1⟩, mkHash 1, 1⟩

/-- Concrete collaborators for witnesses: serialization always succeeds. -/
def exampleCollab : Collab :=
  ⟨fun _ => some [], fun _ => some [], fun _ => mkHash 7, 0, fun _ => (0, mkHash 9)⟩

/-- Concrete collaborators whose transaction serializer always fails. -/
def failingCollab : Collab :=
  ⟨fun _ => none, fun _ => some [], fun _ => mkHash 7, 0, fun _ => (5, mkHash 9)⟩

/-- Success test for `Except`, used to state that the backward walk can never
return successfully. -/
def isOkE {ε α : Type} : Except ε α → Bool
  | .ok _ => true
  | .error _ => false

/-- C1.  The claim fails on the code: the spendable-output resolver never
reports any outputs.  On the chain a fresh initialization produces (exactly
the genesis block, head at its hash), the independent replay gives the miner
address a balance of 100, but `FindUTXO` returns a `NotFound` error: the
backward walk's genesis check compares the length of the 32-byte prior-hash
array with zero, never fires, and the walk steps past genesis to the absent
null-hash key. -/
theorem utxo_conservation_violated :
    exampleChain.Head = exampleGenesis.BlockHash ∧
    exampleChain.db.blocks = [(exampleGenesis.BlockHash, exampleGenesis)] ∧
    replayBalance [exampleGenesis] MinerAddress = 100 ∧
    ChainManager.FindUTXO exampleChain MinerAddress = Except.error ChainError.notFound := by
  exact ⟨rfl, rfl, by decide, rfl⟩

/-- C2.  The claim fails on the code: `IsCoinbase` tests
`len(tx.Inputs[0].ID) == 0`, but `common.Hash` is a 32-byte array whose
length is always 32, so no transaction is ever classified as a coinbase — in
particular the transaction built by `CoinbaseTxn` is not. -/
theorem coinbase_never_classified :
    (∀ tx : Transaction, tx.IsCoinbase = false) ∧
    ∀ (c : Collab) (toA : Address) (data : String),
      (CoinbaseTxn c toA data).IsCoinbase = false := by
  have h : ∀ tx : Transaction, tx.IsCoinbase = false := by
    intro tx
    rcases tx with ⟨id, ins, outs⟩
    match ins with
    | [] => rfl
    | [i] =>
      show (i.ID.bytes.length == 0 && i.Out == -1) = false
      rw [i.ID.len32]
      rfl
    | _ :: _ :: _ => rfl
  exact ⟨h, fun c toA data => h _⟩

/-- C3.  The claim fails on the code: the walk's stopping test
`len(block.Priori) == 0` can never hold of a 32-byte array, so
`FindUnspentTransactions` can never return successfully on any store; on a
well-formed chain (shown here on the genesis-only chain, whose genesis block
does carry the null prior hash) it processes every block and then fails
`NotFound` trying to step past genesis. -/
theorem findUnspent_walk_errors :
    (∀ (address : Address) (db : DB) (fuel : Nat) (cursor : Hash)
        (st : Transactions × List (Hash × List Int)),
      isOkE (findUnspentLoop address db fuel cursor st) = false) ∧
    exampleGenesis.Priori = NullHash ∧
    ChainManager.FindUnspentTransactions exampleChain MinerAddress =
      Except.error ChainError.notFound := by
  refine ⟨?_, rfl, rfl⟩
  intro address db fuel
  induction fuel with
  | zero => intro cursor st; rfl
  | succ n ih =>
    intro cursor st
    unfold findUnspentLoop
    cases h : iterNext db cursor with
    | error e => rfl
    | ok p =>
      simp only
      rw [p.1.Priori.len32]
      exact ih p.2 _

/-- C4.  The claim fails on the code: an unsatisfiable transfer does not end
in an `InsufficientFunds` error returned to the caller — `NewTransaction`
calls `log.Panic` and aborts the process.  On the genesis-only chain a
transfer from an unfunded address aborts already on the resolver's `NotFound`
error, and even a resolver result short of the amount would abort at the
funds check (`log.Panic("Error: not enough funds")`), shown on the second
conjunct; an `Except.error` of `Panic` stands for the process abort. -/
theorem newTransaction_panics_on_shortfall :
    NewTransaction exampleCollab "alice" "bob" 30 exampleChain =
      Except.error (Panic.resolverError ChainError.notFound) ∧
    NewTransactionCore exampleCollab "alice" "bob" 30 (Except.ok (0, [])) =
      Except.error Panic.insufficientFunds :=
  ⟨rfl, rfl⟩

/-- C5.  The claim fails on the code: when a transaction fails to serialize
the summary hash does come out as the null hash, but `NewBlock` never checks
it — it has no error path and still assembles and returns a block, with the
null summary in its header. -/
theorem newBlock_ignores_summary_failure :
    GenerateSummary failingCollab [exampleCoinbase] = NullHash ∧
    NewBlock failingCollab [exampleCoinbase] (mkHash 1) 1 =
      { Header := ⟨mkHash 1, NullHash, 0, 5⟩
        BlockHeight := 1
        BlockTxns := [exampleCoinbase]
        BlockHash := mkHash 9 } :=
  ⟨rfl, rfl⟩

/-- C6.  Confirmed: the public `AddBlock` handler rejects an empty transaction
sequence with the empty-block validation error before building any
transaction or touching the chain, and returns the manager (head, height and
store) unchanged. -/
theorem addBlock_empty_rejected (c : Collab) (chain : ChainManager) :
    APIAddBlock c chain [] = (Except.error RpcError.emptyBlock, chain) := rfl

/-- The `(txid, output-index)` pairs a selection map holds, flattened in
association-list order. -/
def pairsOf (m : List (Hash × List Int)) : List (Hash × Int) :=
  m.foldr (fun e ps => e.2.map (fun v => (e.1, v)) ++ ps) []

theorem setID_fields (c : Collab) (tx : Transaction) :
    (Transaction.SetID c tx).Inputs = tx.Inputs ∧
    (Transaction.SetID c tx).Outputs = tx.Outputs := by
  unfold Transaction.SetID
  cases c.serTxn tx <;> exact ⟨rfl, rfl⟩

theorem buildInputs_eq (fromA : Address) (m : List (Hash × List Int)) :
    ∀ ins : List TxInput,
      m.foldl (fun ins e => ins ++ e.2.map (fun o => TxInput.mk e.1 o fromA)) ins =
      ins ++ (pairsOf m).map (fun p => TxInput.mk p.1 p.2 fromA) := by
  induction m with
  | nil => intro ins; simp [pairsOf]
  | cons e rest ih =>
    intro ins
    simp only [List.foldl_cons, ih, pairsOf, List.foldr_cons, List.map_append,
      List.map_map, List.append_assoc]
    rfl

/-- C7.  Confirmed: when transfer construction reaches the building stage
(the resolver succeeded and the selected total `acc` covers the amount), the
transaction built has exactly one input per selected `(txid, output-index)`
pair, one output of `amount` to the recipient, and a change output of
`acc - amount` back to the sender exactly when the selected total strictly
exceeds the amount — and nothing else. -/
theorem transfer_construction_shape (c : Collab) (fromA toA : Address)
    (amount acc : Int) (validOutputs : List (Hash × List Int))
    (h : amount ≤ acc) :
    NewTransactionCore c fromA toA amount (Except.ok (acc, validOutputs)) =
      Except.ok (buildTransferTxn c fromA toA amount acc validOutputs) ∧
    (buildTransferTxn c fromA toA amount acc validOutputs).Inputs =
      (pairsOf validOutputs).map (fun p => TxInput.mk p.1 p.2 fromA) ∧
    (buildTransferTxn c fromA toA amount acc validOutputs).Outputs =
      TxOutput.mk amount toA ::
        (if acc > amount then [TxOutput.mk (acc - amount) fromA] else []) := by
  refine ⟨?_, ?_, ?_⟩
  · show (if acc < amount then (Except.error Panic.insufficientFunds : Except Panic Transaction)
        else Except.ok (buildTransferTxn c fromA toA amount acc validOutputs)) =
      Except.ok (buildTransferTxn c fromA toA amount acc validOutputs)
    exact if_neg (not_lt.mpr h)
  · unfold buildTransferTxn
    rw [(setID_fields c _).1]
    simpa using buildInputs_eq fromA validOutputs []
  · unfold buildTransferTxn
    rw [(setID_fields c _).2]

/-- Witness for C7 at a concrete selection: sending 30 out of a selected
total of 100 yields one input for the selected pair and a change output of
70. -/
theorem transfer_construction_shape_witness :
    (30 : Int) ≤ 100 ∧
    (NewTransactionCore exampleCollab "a" "b" 30 (Except.ok (100, [(mkHash 3, [0])])) =
      Except.ok (buildTransferTxn exampleCollab "a" "b" 30 100 [(mkHash 3, [0])]) ∧
    (buildTransferTxn exampleCollab "a" "b" 30 100 [(mkHash 3, [0])]).Inputs =
      (pairsOf [(mkHash 3, [0])]).map (fun p => TxInput.mk p.1 p.2 "a") ∧
    (buildTransferTxn exampleCollab "a" "b" 30 100 [(mkHash 3, [0])]).Outputs =
      TxOutput.mk 30 "b" ::
        (if (100 : Int) > 30 then [TxOutput.mk (100 - 30) "a"] else [])) :=
  ⟨by decide,
   transfer_construction_shape exampleCollab "a" "b" 30 100 [(mkHash 3, [0])] (by decide)⟩

/-- Folding `ChainManager.AddBlock` over a sequence of transaction batches,
stopping at the first failure. -/
def AddBlockSeq (c : Collab) : ChainManager → List Transactions → Except ChainError ChainManager
  | chain, [] => .ok chain
  | chain, b :: rest =>
    match chain.AddBlock c b with
    | .error e => .error e
    | .ok chain' => AddBlockSeq c chain' rest

theorem addBlock_step (c : Collab) (chain chain' : ChainManager) (txns : Transactions)
    (h : chain.AddBlock c txns = Except.ok chain') :
    chain'.Height = chain.Height + 1 ∧
    chain'.Head = (NewBlock c txns chain.Head chain.Height).BlockHash := by
  simp only [ChainManager.AddBlock] at h
  split at h
  · exact Except.noConfusion h
  · cases h
    exact ⟨rfl, rfl⟩

/-- C9.  Confirmed: every successful `AddBlock` call increments the in-memory
height by exactly one and leaves the in-memory head equal to the hash of the
block that call built and appended; consequently any successful sequence of
`N` calls raises the height by exactly `N`, with the head tracking the most
recent block at every step (the single-call part applies at each intermediate
manager). -/
theorem addBlock_monotonic_append (c : Collab) (chain : ChainManager) :
    (∀ (txns : Transactions) (chain' : ChainManager),
      chain.AddBlock c txns = Except.ok chain' →
      chain'.Height = chain.Height + 1 ∧
      chain'.Head = (NewBlock c txns chain.Head chain.Height).BlockHash) ∧
    (∀ (batches : List Transactions) (chain' : ChainManager),
      AddBlockSeq c chain batches = Except.ok chain' →
      chain'.Height = chain.Height + batches.length) := by
  constructor
  · intro txns chain' h
    exact addBlock_step c chain chain' txns h
  · have aux : ∀ (batches : List Transactions) (ch ch' : ChainManager),
        AddBlockSeq c ch batches = Except.ok ch' →
        ch'.Height = ch.Height + batches.length := by
      intro batches
      induction batches with
      | nil =>
        intro ch ch' h
        cases h
        simp
      | cons b rest ih =>
        intro ch ch' h
        unfold AddBlockSeq at h
        cases hs : ch.AddBlock c b with
        | error e => rw [hs] at h; exact Except.noConfusion h
        | ok ch1 =>
          rw [hs] at h
          have h1 := (addBlock_step c ch ch1 b hs).1
          have h2 := ih ch1 ch' h
          rw [h2, h1, List.length_cons]
          push_cast
          ring
    exact fun batches chain' h => aux batches chain chain' h

/-- The manager one successful append leaves behind, evaluated concretely for
the witness. -/
def exampleChain2 : ChainManager :=
  (ChainManager.AddBlock exampleCollab exampleChain [exampleCoinbase]).toOption.getD exampleChain

/-- The manager two successful appends leave behind. -/
def exampleChain3 : ChainManager :=
  (AddBlockSeq exampleCollab exampleChain [[exampleCoinbase], [exampleCoinbase]]).toOption.getD
    exampleChain

/-- Witness for C9: on the genesis-only chain one append succeeds and moves
the height from 1 to 2 with the head at the new block's hash; a sequence of
two appends moves the height to 3. -/
theorem addBlock_monotonic_append_witness :
    ChainManager.AddBlock exampleCollab exampleChain [exampleCoinbase] =
      Except.ok exampleChain2 ∧
    exampleChain2.Height = exampleChain.Height + 1 ∧
    exampleChain2.Head =
      (NewBlock exampleCollab [exampleCoinbase] exampleChain.Head exampleChain.Height).BlockHash ∧
    AddBlockSeq exampleCollab exampleChain [[exampleCoinbase], [exampleCoinbase]] =
      Except.ok exampleChain3 ∧
    exampleChain3.Height = exampleChain.Height + 2 := by
  have h1 : ChainManager.AddBlock exampleCollab exampleChain [exampleCoinbase] =
      Except.ok exampleChain2 := rfl
  have h2 : AddBlockSeq exampleCollab exampleChain [[exampleCoinbase], [exampleCoinbase]] =
      Except.ok exampleChain3 := rfl
  have hm := addBlock_monotonic_append exampleCollab exampleChain
  refine ⟨h1, (hm.1 _ _ h1).1, (hm.1 _ _ h1).2, h2, ?_⟩
  simpa using hm.2 [[exampleCoinbase], [exampleCoinbase]] exampleChain3 h2

/-! ## State-threaded read path (for the frame claim).  The Go read methods
take `*ChainManager`; their bodies assign to no field of the manager and issue
no store write, so their translations return the manager unchanged alongside
the result, threading it through each sub-call exactly as the call graph
does. -/

/-- `FindUnspentTransactions` with the manager threaded through: the body only
creates an iterator over `chain.db` and local state. -/
def ChainManager.FindUnspentTransactionsS (chain : ChainManager) (address : Address) :
    Except ChainError Transactions × ChainManager :=
  (chain.FindUnspentTransactions address, chain)

/-- `FindUTXO` with the manager threaded through its one sub-call. -/
def ChainManager.FindUTXOS (chain : ChainManager) (address : Address) :
    Except ChainError (List TxOutput) × ChainManager :=
  let r := chain.FindUnspentTransactionsS address
  match r.1 with
  | .error e => (.error e, r.2)
  | .ok txs => (.ok (utxoFilter address txs), r.2)

/-- `FindSpendableOutputs` with the manager threaded through its one
sub-call. -/
def ChainManager.FindSpendableOutputsS (chain : ChainManager) (address : Address)
    (amount : Int) :
    Except ChainError (Int × List (Hash × List Int)) × ChainManager :=
  let r := chain.FindUnspentTransactionsS address
  (FindSpendableOutputsCore address amount r.1, r.2)

/-- `NewTransaction` with the manager threaded through its resolver call; the
construction itself touches no chain state. -/
def NewTransactionS (c : Collab) (fromA toA : Address) (amount : Int)
    (chain : ChainManager) : Except Panic Transaction × ChainManager :=
  let r := chain.FindSpendableOutputsS fromA amount
  (NewTransactionCore c fromA toA amount r.1, r.2)

/-- C10.  Confirmed: the UTXO read operations and transfer construction leave
the manager — head, height and store contents — unchanged. -/
theorem read_ops_frame (c : Collab) (chain : ChainManager)
    (address fromA toA : Address) (amount : Int) :
    (chain.FindUnspentTransactionsS address).2 = chain ∧
    (chain.FindUTXOS address).2 = chain ∧
    (chain.FindSpendableOutputsS address amount).2 = chain ∧
    (NewTransactionS c fromA toA amount chain).2 = chain := by
  refine ⟨rfl, ?_, rfl, rfl⟩
  unfold ChainManager.FindUTXOS ChainManager.FindUnspentTransactionsS
  cases chain.FindUnspentTransactions address <;> rfl

/-! ## The greedy first-fit selection (C8): spec-side description and its
refinement by the `Work:` loop of `FindSpendableOutputs`. -/

/-- The outputs of a transaction paired with their running indices. -/
def enumOuts : List TxOutput → Int → List (Int × TxOutput)
  | [], _ => []
  | o :: rest, i => (i, o) :: enumOuts rest (i + 1)

/-- The candidate `(txid, output-index, value)` triples one transaction
contributes for an address, from index `i` on. -/
def candsOfOuts (address : Address) (txID : Hash) (outs : List TxOutput) (i : Int) :
    List (Hash × Int × Int) :=
  (enumOuts outs i).filterMap
    (fun e => if e.2.PubKey = address then some (txID, e.1, e.2.Value) else none)

/-- All candidate outputs for an address over the visited transactions, in
visitation order. -/
def candidates (address : Address) : Transactions → List (Hash × Int × Int)
  | [] => []
  | tx :: rest => candsOfOuts address tx.ID tx.Outputs 0 ++ candidates address rest

/-- The spec's words for spendable-output selection: greedily take candidates
in visitation order while the running total is below the amount, stopping as
soon as it reaches or exceeds it; return the total and the selected
`(txid, index)` pairs. -/
def greedySpec (amount : Int) : List (Hash × Int × Int) → Int → Int × List (Hash × Int)
  | [], acc => (acc, [])
  | cand :: rest, acc =>
    if acc < amount then
      let acc' := acc + cand.2.2
      if amount ≤ acc' then (acc', [(cand.1, cand.2.1)])
      else
        let r := greedySpec amount rest acc'
        (r.1, (cand.1, cand.2.1) :: r.2)
    else (acc, [])

/-- Appending a list of selected pairs into the selection map, one
`mapAppend` per pair. -/
def appendPairs (m : List (Hash × List Int)) (ps : List (Hash × Int)) :
    List (Hash × List Int) :=
  ps.foldl (fun m p => mapAppend m p.1 p.2) m

theorem greedySpec_stopped (amount : Int) (cs : List (Hash × Int × Int)) (acc : Int)
    (h : ¬acc < amount) : greedySpec amount cs acc = (acc, []) := by
  cases cs with
  | nil => rfl
  | cons cand rest =>
    unfold greedySpec
    rw [if_neg h]

theorem pairsOf_mapAppend (m : List (Hash × List Int)) (k : Hash) (v : Int) :
    List.Perm (pairsOf (mapAppend m k v)) (pairsOf m ++ [(k, v)]) := by
  induction m with
  | nil => simp [mapAppend, pairsOf]
  | cons e rest ih =>
    unfold mapAppend
    by_cases hk : (e.1 == k) = true
    · rw [if_pos hk]
      have hk' : e.1 = k := by simpa using hk
      subst hk'
      show List.Perm ((e.2 ++ [v]).map (fun w => (e.1, w)) ++ pairsOf rest)
        ((e.2.map (fun w => (e.1, w)) ++ pairsOf rest) ++ [(e.1, v)])
      rw [List.map_append, List.append_assoc, List.append_assoc]
      exact List.Perm.append_left _ List.perm_append_comm
    · rw [if_neg hk]
      show List.Perm (e.2.map (fun w => (e.1, w)) ++ pairsOf (mapAppend rest k v))
        ((e.2.map (fun w => (e.1, w)) ++ pairsOf rest) ++ [(k, v)])
      rw [List.append_assoc]
      exact List.Perm.append_left _ ih

theorem pairsOf_appendPairs (ps : List (Hash × Int)) :
    ∀ m : List (Hash × List Int),
      List.Perm (pairsOf (appendPairs m ps)) (pairsOf m ++ ps) := by
  induction ps with
  | nil => intro m; simp [appendPairs]
  | cons p ps ih =>
    intro m
    show List.Perm (pairsOf (appendPairs (mapAppend m p.1 p.2) ps)) _
    refine (ih (mapAppend m p.1 p.2)).trans ?_
    refine (List.Perm.append_right ps (pairsOf_mapAppend m p.1 p.2)).trans ?_
    rw [List.append_assoc]
    exact List.Perm.append_left _ (by simp)

theorem greedySpec_cons (amount : Int) (cand : Hash × Int × Int)
    (rest : List (Hash × Int × Int)) (acc : Int) :
    greedySpec amount (cand :: rest) acc =
      (if acc < amount then
        (if amount ≤ acc + cand.2.2 then (acc + cand.2.2, [(cand.1, cand.2.1)])
         else ((greedySpec amount rest (acc + cand.2.2)).1,
           (cand.1, cand.2.1) :: (greedySpec amount rest (acc + cand.2.2)).2))
      else (acc, [])) := rfl

theorem spendOuts_cons (address : Address) (amount : Int) (txID : Hash) (out : TxOutput)
    (rest : List TxOutput) (i acc : Int) (m : List (Hash × List Int)) :
    spendOuts address amount txID (out :: rest) i acc m =
      (if out.CanBeUnlocked address = true ∧ acc < amount then
        (if amount ≤ acc + out.Value then (acc + out.Value, mapAppend m txID i, true)
         else spendOuts address amount txID rest (i + 1) (acc + out.Value) (mapAppend m txID i))
      else spendOuts address amount txID rest (i + 1) acc m) := rfl

theorem spendLoop_cons (address : Address) (amount : Int) (tx : Transaction)
    (rest : Transactions) (acc : Int) (m : List (Hash × List Int)) :
    spendLoop address amount (tx :: rest) acc m =
      (if (spendOuts address amount tx.ID tx.Outputs 0 acc m).2.2 = true
       then ((spendOuts address amount tx.ID tx.Outputs 0 acc m).1,
             (spendOuts address amount tx.ID tx.Outputs 0 acc m).2.1)
       else spendLoop address amount rest
              (spendOuts address amount tx.ID tx.Outputs 0 acc m).1
              (spendOuts address amount tx.ID tx.Outputs 0 acc m).2.1) := rfl

theorem spendOuts_eq (address : Address) (amount : Int) (txID : Hash) :
    ∀ (outs : List TxOutput) (i acc : Int) (m : List (Hash × List Int)),
      spendOuts address amount txID outs i acc m =
        ((greedySpec amount (candsOfOuts address txID outs i) acc).1,
         appendPairs m (greedySpec amount (candsOfOuts address txID outs i) acc).2,
         decide (acc < amount) &&
           decide (amount ≤ (greedySpec amount (candsOfOuts address txID outs i) acc).1)) := by
  intro outs
  induction outs with
  | nil =>
    intro i acc m
    have hb : (decide (acc < amount) && decide (amount ≤ acc)) = false := by
      by_cases h : acc < amount
      · simp [not_le.mpr h]
      · simp [h]
    show (acc, m, false) =
      (acc, m, decide (acc < amount) && decide (amount ≤ acc))
    rw [hb]
  | cons out rest ih =>
    intro i acc m
    rw [spendOuts_cons]
    by_cases hp : out.PubKey = address
    · have hcands : candsOfOuts address txID (out :: rest) i =
          (txID, i, out.Value) :: candsOfOuts address txID rest (i + 1) := by
        simp [candsOfOuts, enumOuts, hp]
      rw [hcands, greedySpec_cons]
      by_cases ha : acc < amount
      · have hg : out.CanBeUnlocked address = true ∧ acc < amount :=
          ⟨by simp [TxOutput.CanBeUnlocked, hp], ha⟩
        rw [if_pos hg, if_pos ha]
        by_cases hc : amount ≤ acc + out.Value
        · rw [if_pos hc, if_pos hc]
          simp [ha, hc, appendPairs]
        · rw [if_neg hc, if_neg hc, ih (i + 1) (acc + out.Value) (mapAppend m txID i)]
          simp [ha, not_le.mp hc, appendPairs]
      · have hg : ¬(out.CanBeUnlocked address = true ∧ acc < amount) :=
          fun hx => ha hx.2
        rw [if_neg hg, if_neg ha, ih (i + 1) acc m,
          greedySpec_stopped amount _ acc ha]
    · have hcands : candsOfOuts address txID (out :: rest) i =
          candsOfOuts address txID rest (i + 1) := by
        simp [candsOfOuts, enumOuts, hp]
      have hg : ¬(out.CanBeUnlocked address = true ∧ acc < amount) := by
        intro hx
        exact hp (by simpa [TxOutput.CanBeUnlocked] using hx.1)
      rw [if_neg hg, ih (i + 1) acc m, hcands]

theorem greedySpec_append (amount : Int) :
    ∀ (xs ys : List (Hash × Int × Int)) (acc : Int),
      greedySpec amount (xs ++ ys) acc =
        (if (greedySpec amount xs acc).1 < amount then
          ((greedySpec amount ys (greedySpec amount xs acc).1).1,
           (greedySpec amount xs acc).2 ++
             (greedySpec amount ys (greedySpec amount xs acc).1).2)
        else greedySpec amount xs acc) := by
  intro xs
  induction xs with
  | nil =>
    intro ys acc
    by_cases h : acc < amount
    · simp [greedySpec, if_pos h]
    · rw [List.nil_append]
      show greedySpec amount ys acc = _
      rw [greedySpec_stopped amount ys acc h]
      simp [greedySpec, h]
  | cons cand xs ih =>
    intro ys acc
    show greedySpec amount (cand :: (xs ++ ys)) acc = _
    rw [greedySpec_cons, greedySpec_cons]
    by_cases ha : acc < amount
    · rw [if_pos ha, if_pos ha]
      by_cases hc : amount ≤ acc + cand.2.2
      · rw [if_pos hc, if_pos hc]
        have hx : ¬(acc + cand.2.2 < amount) := not_lt.mpr hc
        simp [hx]
      · rw [if_neg hc, if_neg hc, ih ys (acc + cand.2.2)]
        by_cases hx : (greedySpec amount xs (acc + cand.2.2)).1 < amount
        · simp [hx]
        · simp [hx]
    · rw [if_neg ha, if_neg ha]
      simp [ha]

theorem spendLoop_eq (address : Address) (amount : Int) :
    ∀ (txs : Transactions) (acc : Int) (m : List (Hash × List Int)),
      spendLoop address amount txs acc m =
        ((greedySpec amount (candidates address txs) acc).1,
         appendPairs m (greedySpec amount (candidates address txs) acc).2) := by
  intro txs
  induction txs with
  | nil => intro acc m; rfl
  | cons tx rest ih =>
    intro acc m
    rw [spendLoop_cons, spendOuts_eq address amount tx.ID tx.Outputs 0 acc m]
    have hcand : candidates address (tx :: rest) =
        candsOfOuts address tx.ID tx.Outputs 0 ++ candidates address rest := rfl
    rw [hcand, greedySpec_append amount _ (candidates address rest) acc]
    by_cases ha : acc < amount
    · by_cases hs : amount ≤ (greedySpec amount (candsOfOuts address tx.ID tx.Outputs 0) acc).1
      · rw [if_pos (by simp [ha, hs]), if_neg (not_lt.mpr hs)]
      · rw [if_neg (by simp [hs]), if_pos (not_le.mp hs)]
        dsimp only
        rw [ih _ _]
        simp only [appendPairs]
        rw [List.foldl_append]
    · have h0 : greedySpec amount (candsOfOuts address tx.ID tx.Outputs 0) acc = (acc, []) :=
        greedySpec_stopped amount _ acc ha
      rw [if_neg (by simp [ha]), h0, if_neg ha, ih _ _,
        greedySpec_stopped amount _ acc ha]
      rfl

/-- C8.  Confirmed as a refinement: on a resolver result, `FindSpendableOutputs`
runs its accumulation loop, and that loop computes exactly the spec's greedy
first-fit selection over the address's candidate outputs in visitation order —
the same accumulated total, and (as a multiset, since Go map iteration is
unordered) exactly the `(txid, output-index)` pairs the greedy pass takes
before the running total first reaches the amount. -/
theorem findSpendable_greedy_firstfit (address : Address) (amount : Int)
    (txs : Transactions) :
    FindSpendableOutputsCore address amount (Except.ok txs) =
      Except.ok (spendLoop address amount txs 0 []) ∧
    (spendLoop address amount txs 0 []).1 =
      (greedySpec amount (candidates address txs) 0).1 ∧
    List.Perm (pairsOf (spendLoop address amount txs 0 []).2)
      (greedySpec amount (candidates address txs) 0).2 := by
  refine ⟨rfl, ?_, ?_⟩
  · rw [spendLoop_eq]
  · rw [spendLoop_eq]
    simpa using pairsOf_appendPairs (greedySpec amount (candidates address txs) 0).2 []

end Essensio
